import Mathlib

/-!
Verification of the local-storage state engine: the JSON codec
(modelling `defaultSerialize` / `defaultDeserialize`, i.e. the host
`JSON.stringify` / `JSON.parse` pair restricted to JSON-representable
values with integer numerics), the guarded storage adapter
(`isLocalStorageAvailable`, `readLocalStorage`, `writeLocalStorage`,
`removeLocalStorage`), the read/migrate/merge pipeline (`readAll`,
`readInitial`), and the mutation API of `useLocalStorageState`.
-/

/-- JSON-representable values: the domain of a State's field values.
Numbers are modelled as integers (the serializer only ever needs to
round-trip what it emits; non-integer numerics are out of model scope). -/
inductive Value where
  | vnull : Value
  | vbool : Bool → Value
  | vnum : Int → Value
  | vstr : String → Value
  | varr : List Value → Value
  | vobj : List (String × Value) → Value

/-- A State / partial State: a finite map from field names to values,
represented as an association list (JS object, insertion-ordered). -/
abbrev Obj := List (String × Value)

/-- Hexadecimal digit character for a value below 16, lowercase as emitted
by the \u escapes of `JSON.stringify`. -/
def hexChar (d : Nat) : Char :=
  if d < 10 then Char.ofNat (48 + d) else Char.ofNat (97 + (d - 10))

/-- Escape of one character inside a JSON string literal, following
`JSON.stringify`: `"` and `\` get backslash escapes, the five short
control escapes are used where they exist, remaining control characters
become \u00XX, all other characters pass through. -/
def escChar (c : Char) : List Char :=
  if c = '"' then ['\\', '"']
  else if c = '\\' then ['\\', '\\']
  else if c = '\x08' then ['\\', 'b']
  else if c = '\x0c' then ['\\', 'f']
  else if c = '\n' then ['\\', 'n']
  else if c = '\r' then ['\\', 'r']
  else if c = '\t' then ['\\', 't']
  else if c.toNat < 0x20 then
    ['\\', 'u', '0', '0', hexChar (c.toNat / 16), hexChar (c.toNat % 16)]
  else [c]

/-- Escape a whole character sequence for a JSON string literal. -/
def escChars : List Char → List Char
  | [] => []
  | c :: cs => escChar c ++ escChars cs

/-- Decimal digit characters of a natural number, least significant first,
computed with explicit fuel so that the definition reduces in the kernel. -/
def natCharsAux : Nat → Nat → List Char
  | 0, _ => []
  | _ + 1, 0 => []
  | fuel + 1, n => Nat.digitChar (n % 10) :: natCharsAux fuel (n / 10)

/-- Decimal digit characters of a natural number, most significant first. -/
def natChars (n : Nat) : List Char :=
  if n = 0 then ['0'] else (natCharsAux n n).reverse

/-- Decimal rendering of an integer, matching `JSON.stringify` on integral
numbers. -/
def intChars (n : Int) : List Char :=
  if n < 0 then '-' :: natChars n.natAbs else natChars n.natAbs

mutual

/-- Character sequence produced by `JSON.stringify` (no indent argument)
on a `Value`. -/
def serChars : Value → List Char
  | .vnull => ['n', 'u', 'l', 'l']
  | .vbool true => ['t', 'r', 'u', 'e']
  | .vbool false => ['f', 'a', 'l', 's', 'e']
  | .vnum n => intChars n
  | .vstr s => '"' :: (escChars s.data ++ ['"'])
  | .varr items => '[' :: (serItems items ++ [']'])
  | .vobj fields => '\x7b' :: (serFields fields ++ ['\x7d'])

/-- Comma-separated serialization of array elements. -/
def serItems : List Value → List Char
  | [] => []
  | [v] => serChars v
  | v :: rest => serChars v ++ ',' :: serItems rest

/-- Comma-separated serialization of object entries (quoted key, colon,
value). -/
def serFields : List (String × Value) → List Char
  | [] => []
  | [(k, v)] => '"' :: (escChars k.data ++ '"' :: ':' :: serChars v)
  | (k, v) :: rest =>
      '"' :: (escChars k.data ++ '"' :: ':' :: serChars v) ++ ',' :: serFields rest

end

/-- Models `defaultSerialize` from `serialization.ts`, i.e.
`JSON.stringify(value)`. -/
def defaultSerialize (v : Value) : String :=
  String.mk (serChars v)

/-- Value of one hexadecimal digit character, case-insensitive, as accepted
by the \uXXXX escapes of `JSON.parse`. -/
def hexVal (c : Char) : Option Nat :=
  if 48 ≤ c.toNat ∧ c.toNat ≤ 57 then some (c.toNat - 48)
  else if 97 ≤ c.toNat ∧ c.toNat ≤ 102 then some (c.toNat - 87)
  else if 65 ≤ c.toNat ∧ c.toNat ≤ 70 then some (c.toNat - 55)
  else none

/-- Short escape table of JSON string literals (the character after a
backslash, other than `u`). -/
def escShort (e : Char) : Option Char :=
  if e = '"' then some '"'
  else if e = '\\' then some '\\'
  else if e = '/' then some '/'
  else if e = 'b' then some '\x08'
  else if e = 'f' then some '\x0c'
  else if e = 'n' then some '\n'
  else if e = 'r' then some '\r'
  else if e = 't' then some '\t'
  else none

/-- Reads the body of a JSON string literal after its opening quote,
returning the unescaped characters and the remaining input past the closing
quote. Unescaped control characters are rejected, as in `JSON.parse`. -/
def readStringAux : List Char → Option (List Char × List Char)
  | [] => none
  | c :: r =>
    if c = '"' then some ([], r)
    else if c = '\\' then
      match r with
      | [] => none
      | e :: r2 =>
        if e = 'u' then
          match r2 with
          | h1 :: h2 :: h3 :: h4 :: r3 =>
            match hexVal h1, hexVal h2, hexVal h3, hexVal h4 with
            | some a, some b, some c3, some d =>
              (readStringAux r3).map
                (fun p => (Char.ofNat (((a * 16 + b) * 16 + c3) * 16 + d) :: p.1, p.2))
            | _, _, _, _ => none
          | _ => none
        else
          match escShort e with
          | none => none
          | some ec => (readStringAux r2).map (fun p => (ec :: p.1, p.2))
    else if c.toNat < 0x20 then none
    else (readStringAux r).map (fun p => (c :: p.1, p.2))

/-- Whitespace characters `JSON.parse` skips around tokens. -/
def isWsChar (c : Char) : Bool :=
  c = ' ' || c = '\t' || c = '\n' || c = '\r'

/-- Drops leading JSON whitespace. -/
def skipWs (l : List Char) : List Char :=
  l.dropWhile isWsChar

/-- Consumes a maximal run of decimal digit characters, accumulating their
value onto `acc`. -/
def readDigits : List Char → Nat → Nat × List Char
  | [], acc => (acc, [])
  | c :: r, acc =>
    if c.isDigit then readDigits r (acc * 10 + (c.toNat - 48)) else (acc, c :: r)

mutual

/-- Fuel-indexed recursive-descent JSON value reader, modelling
`JSON.parse` on the grammar the engine persists: null, booleans, integral
numbers, strings, arrays, objects. Returns the value and the remaining
input. -/
def parseValue : Nat → List Char → Option (Value × List Char)
  | 0, _ => none
  | fuel + 1, l =>
    match skipWs l with
    | [] => none
    | c :: r =>
    if c = 'n' then
      match r with
      | 'u' :: 'l' :: 'l' :: r1 => some (.vnull, r1)
      | _ => none
    else if c = 't' then
      match r with
      | 'r' :: 'u' :: 'e' :: r1 => some (.vbool true, r1)
      | _ => none
    else if c = 'f' then
      match r with
      | 'a' :: 'l' :: 's' :: 'e' :: r1 => some (.vbool false, r1)
      | _ => none
    else if c = '"' then
      (readStringAux r).map (fun p => (.vstr (String.mk p.1), p.2))
    else if c = '[' then
      match skipWs r with
      | ']' :: r1 => some (.varr [], r1)
      | _ => (parseItems fuel r).map (fun p => (.varr p.1, p.2))
    else if c = '\x7b' then
      match skipWs r with
      | '\x7d' :: r1 => some (.vobj [], r1)
      | _ => (parseFields fuel r).map (fun p => (.vobj p.1, p.2))
    else if c = '-' then
      match r with
      | [] => none
      | d :: _ =>
        if d.isDigit then
          let p := readDigits r 0
          some (.vnum (-(p.1 : Int)), p.2)
        else none
    else if c.isDigit then
      let p := readDigits (c :: r) 0
      some (.vnum (p.1 : Int), p.2)
    else none

/-- Reads one or more comma-separated array elements and the closing `]`. -/
def parseItems : Nat → List Char → Option (List Value × List Char)
  | 0, _ => none
  | fuel + 1, l =>
    match parseValue fuel l with
    | none => none
    | some (v, r) =>
      match skipWs r with
      | ',' :: r1 => (parseItems fuel r1).map (fun p => (v :: p.1, p.2))
      | ']' :: r1 => some ([v], r1)
      | _ => none

/-- Reads one or more comma-separated object entries and the closing brace. -/
def parseFields : Nat → List Char → Option (List (String × Value) × List Char)
  | 0, _ => none
  | fuel + 1, l =>
    match skipWs l with
    | '"' :: r =>
      match readStringAux r with
      | none => none
      | some (k, r1) =>
        match skipWs r1 with
        | ':' :: r2 =>
          match parseValue fuel r2 with
          | none => none
          | some (v, r3) =>
            match skipWs r3 with
            | ',' :: r4 => (parseFields fuel r4).map (fun p => ((String.mk k, v) :: p.1, p.2))
            | '\x7d' :: r4 => some ([(String.mk k, v)], r4)
            | _ => none
        | _ => none
    | _ => none

end

/-- Models `defaultDeserialize` from `serialization.ts`, i.e.
`JSON.parse(raw)`: `none` denotes the thrown SyntaxError on malformed
input. -/
def defaultDeserialize (raw : String) : Option Value :=
  match parseValue (raw.data.length + 1) (skipWs raw.data) with
  | some (v, rest) => if skipWs rest = [] then some v else none
  | none => none

/-- Accumulating decimal value of a big-endian digit-character list. -/
def foldDigits (acc : Nat) (ds : List Char) : Nat :=
  ds.foldl (fun a c => a * 10 + (c.toNat - 48)) acc

/-- True when the list does not begin with a decimal digit, so a preceding
number token cannot absorb it. -/
def digitFree : List Char → Bool
  | [] => true
  | c :: _ => !c.isDigit

theorem skipWs_cons_of_not_ws (c : Char) (l : List Char) (h : isWsChar c = false) :
    skipWs (c :: l) = c :: l := by
  rw [skipWs, List.dropWhile_cons_of_neg]
  simp [h]

theorem isWsChar_eq_false_of_isDigit (c : Char) (h : c.isDigit = true) :
    isWsChar c = false := by
  simp only [Char.isDigit, Bool.and_eq_true, decide_eq_true_eq] at h
  simp only [isWsChar, Bool.or_eq_false_iff, decide_eq_false_iff_not]
  refine ⟨⟨⟨?_, ?_⟩, ?_⟩, ?_⟩ <;> rintro rfl <;> revert h <;> decide

theorem readDigits_append (ds rest : List Char) (acc : Nat)
    (hds : ∀ c ∈ ds, c.isDigit = true) (hrest : digitFree rest = true) :
    readDigits (ds ++ rest) acc = (foldDigits acc ds, rest) := by
  induction ds generalizing acc with
  | nil =>
    cases rest with
    | nil => rfl
    | cons c r =>
      simp only [digitFree, Bool.not_eq_true'] at hrest
      simp [readDigits, hrest, foldDigits]
  | cons d ds ih =>
    have hd : d.isDigit = true := hds d (by simp)
    simp only [List.cons_append, readDigits, hd, if_true, foldDigits, List.foldl_cons]
    exact ih _ (fun c hc => hds c (List.mem_cons_of_mem _ hc))

theorem digitChar_isDigit (d : Nat) (h : d < 10) : (Nat.digitChar d).isDigit = true := by
  interval_cases d <;> decide

theorem digitChar_toNat (d : Nat) (h : d < 10) : (Nat.digitChar d).toNat - 48 = d := by
  interval_cases d <;> decide

theorem natCharsAux_digits (fuel n : Nat) :
    ∀ c ∈ natCharsAux fuel n, c.isDigit = true := by
  induction fuel generalizing n with
  | zero => simp [natCharsAux]
  | succ fuel ih =>
    cases n with
    | zero => simp [natCharsAux]
    | succ m =>
      intro c hc
      simp only [natCharsAux, List.mem_cons] at hc
      rcases hc with rfl | hc
      · exact digitChar_isDigit _ (Nat.mod_lt _ (by norm_num))
      · exact ih _ c hc

theorem foldDigits_natCharsAux (fuel n acc : Nat) (h : n < 10 ^ fuel) :
    foldDigits acc ((natCharsAux fuel n).reverse) =
      acc * 10 ^ (natCharsAux fuel n).length + n := by
  induction fuel generalizing n acc with
  | zero =>
    interval_cases n
    simp [natCharsAux, foldDigits]
  | succ fuel ih =>
    cases n with
    | zero => simp [natCharsAux, foldDigits]
    | succ m =>
      have hdiv : (m + 1) / 10 < 10 ^ fuel := by
        have h1 : m + 1 < 10 ^ (fuel + 1) := h
        exact Nat.div_lt_of_lt_mul (by rw [pow_succ, Nat.mul_comm] at h1; exact h1)
      have ihh := ih ((m + 1) / 10) acc hdiv
      simp only [foldDigits] at ihh ⊢
      simp only [natCharsAux, List.reverse_cons, List.foldl_append, List.foldl_cons,
        List.foldl_nil, List.length_cons]
      rw [ihh, digitChar_toNat _ (Nat.mod_lt _ (by norm_num)), pow_succ]
      have hdm := Nat.div_add_mod (m + 1) 10
      set L := (natCharsAux fuel ((m + 1) / 10)).length with hL
      have hstep : (acc * 10 ^ L + (m + 1) / 10) * 10 + (m + 1) % 10
          = acc * (10 ^ L * 10) + (10 * ((m + 1) / 10) + (m + 1) % 10) := by ring
      rw [hstep, hdm]

theorem natCharsAux_ne_nil (n : Nat) (h : n ≠ 0) : natCharsAux n n ≠ [] := by
  cases n with
  | zero => exact absurd rfl h
  | succ m => simp [natCharsAux]

theorem natChars_digits (n : Nat) : ∀ c ∈ natChars n, c.isDigit = true := by
  rw [natChars]
  split
  · intro c hc; simp at hc; subst hc; decide
  · intro c hc
    exact natCharsAux_digits n n c (List.mem_reverse.mp hc)

theorem natChars_ne_nil (n : Nat) : natChars n ≠ [] := by
  rw [natChars]
  split
  · simp
  · simp only [ne_eq, List.reverse_eq_nil_iff]
    exact natCharsAux_ne_nil n (by assumption)

theorem foldDigits_natChars (n : Nat) : foldDigits 0 (natChars n) = n := by
  rw [natChars]
  split
  · subst_vars; decide
  · rw [foldDigits_natCharsAux n n 0 (Nat.lt_pow_self (by norm_num) n)]
    simp

theorem readDigits_natChars (n : Nat) (rest : List Char) (hrest : digitFree rest = true) :
    readDigits (natChars n ++ rest) 0 = (n, rest) := by
  rw [readDigits_append _ _ _ (natChars_digits n) hrest, foldDigits_natChars]

theorem hexVal_hexChar (d : Nat) (h : d < 16) : hexVal (hexChar d) = some d := by
  interval_cases d <;> decide

theorem readStringAux_escChar (c : Char) (l : List Char) :
    readStringAux (escChar c ++ l) = (readStringAux l).map (fun p => (c :: p.1, p.2)) := by
  by_cases h1 : c = '"'
  · subst h1; rw [escChar]; norm_num; rw [readStringAux.eq_def]; simp [escShort]
  by_cases h2 : c = '\\'
  · subst h2; rw [escChar]; norm_num; rw [readStringAux.eq_def]; simp [escShort]
  by_cases h3 : c = '\x08'
  · subst h3; rw [escChar]; norm_num; rw [readStringAux.eq_def]; simp [escShort]
  by_cases h4 : c = '\x0c'
  · subst h4; rw [escChar]; norm_num; rw [readStringAux.eq_def]; simp [escShort]
  by_cases h5 : c = '\n'
  · subst h5; rw [escChar]; norm_num; rw [readStringAux.eq_def]; simp [escShort]
  by_cases h6 : c = '\r'
  · subst h6; rw [escChar]; norm_num; rw [readStringAux.eq_def]; simp [escShort]
  by_cases h7 : c = '\t'
  · subst h7; rw [escChar]; norm_num; rw [readStringAux.eq_def]; simp [escShort]
  by_cases h8 : c.toNat < 0x20
  · have hdiv : c.toNat / 16 < 16 := by omega
    have hmod : c.toNat % 16 < 16 := Nat.mod_lt _ (by norm_num)
    have h0 : hexVal '0' = some 0 := by decide
    have hcode : ((0 * 16 + 0) * 16 + c.toNat / 16) * 16 + c.toNat % 16 = c.toNat := by
      omega
    rw [escChar, if_neg h1, if_neg h2, if_neg h3, if_neg h4, if_neg h5, if_neg h6,
      if_neg h7, if_pos h8]
    simp only [List.cons_append, List.nil_append]
    rw [readStringAux.eq_def]
    simp only [h0, hexVal_hexChar _ hdiv, hexVal_hexChar _ hmod, hcode, Char.ofNat_toNat]
    simp
  · rw [escChar, if_neg h1, if_neg h2, if_neg h3, if_neg h4, if_neg h5, if_neg h6,
      if_neg h7, if_neg h8]
    simp only [List.cons_append, List.nil_append]
    rw [readStringAux.eq_def]
    simp only [if_neg h1, if_neg h2, if_neg h8]

theorem readStringAux_escChars (cs rest : List Char) :
    readStringAux (escChars cs ++ '"' :: rest) = some (cs, rest) := by
  induction cs with
  | nil =>
    rw [escChars, List.nil_append, readStringAux.eq_def]
    simp
  | cons c cs ih =>
    rw [escChars, List.append_assoc, readStringAux_escChar, ih]
    rfl

theorem isDigit_not_key_char (c : Char) (h : c.isDigit = true) :
    ¬ c = 'n' ∧ ¬ c = 't' ∧ ¬ c = 'f' ∧ ¬ c = '"' ∧ ¬ c = '[' ∧ ¬ c = '\x7b' ∧
      ¬ c = '-' ∧ ¬ c = ']' ∧ ¬ c = '\x7d' := by
  refine ⟨?_, ?_, ?_, ?_, ?_, ?_, ?_, ?_, ?_⟩ <;> rintro rfl <;> revert h <;> decide

theorem natChars_head (n : Nat) :
    ∃ c cs, natChars n = c :: cs ∧ c.isDigit = true := by
  cases hl : natChars n with
  | nil => exact absurd hl (natChars_ne_nil n)
  | cons c cs =>
    exact ⟨c, cs, rfl, natChars_digits n c (by rw [hl]; exact List.mem_cons_self c cs)⟩

theorem serChars_head_ok (v : Value) : ∃ c cs, serChars v = c :: cs ∧
    isWsChar c = false ∧ ¬ c = ']' ∧ ¬ c = '\x7d' := by
  cases v with
  | vnull => exact ⟨'n', ['u', 'l', 'l'], by simp [serChars], by decide, by decide, by decide⟩
  | vbool b =>
    cases b with
    | true =>
      exact ⟨'t', ['r', 'u', 'e'], by simp [serChars], by decide, by decide, by decide⟩
    | false =>
      exact ⟨'f', ['a', 'l', 's', 'e'], by simp [serChars], by decide, by decide, by decide⟩
  | vnum n =>
    by_cases hn : n < 0
    · exact ⟨'-', natChars n.natAbs, by simp [serChars, intChars, hn], by decide, by decide,
        by decide⟩
    · obtain ⟨c, cs, hl, hd⟩ := natChars_head n.natAbs
      obtain ⟨_, _, _, _, _, _, _, h8, h9⟩ := isDigit_not_key_char c hd
      refine ⟨c, cs, ?_, isWsChar_eq_false_of_isDigit c hd, h8, h9⟩
      simp only [serChars, intChars, if_neg hn]
      exact hl
  | vstr s =>
    exact ⟨'"', escChars s.data ++ ['"'], by simp [serChars], by decide, by decide, by decide⟩
  | varr items =>
    exact ⟨'[', serItems items ++ [']'], by simp [serChars], by decide, by decide, by decide⟩
  | vobj fields =>
    exact ⟨'\x7b', serFields fields ++ ['\x7d'], by simp [serChars], by decide, by decide,
      by decide⟩

theorem serChars_length_pos (v : Value) : 1 ≤ (serChars v).length := by
  obtain ⟨c, cs, hl, _⟩ := serChars_head_ok v
  rw [hl]
  simp

theorem skipWs_serChars (v : Value) (rest : List Char) :
    skipWs (serChars v ++ rest) = serChars v ++ rest := by
  obtain ⟨c, cs, hl, hws, _⟩ := serChars_head_ok v
  rw [hl, List.cons_append, skipWs_cons_of_not_ws _ _ hws]

theorem serItems_cons_ne (v : Value) (vs : List Value) (h : vs ≠ []) :
    serItems (v :: vs) = serChars v ++ ',' :: serItems vs := by
  cases vs with
  | nil => exact absurd rfl h
  | cons w ws => simp [serItems]

theorem serFields_cons_ne (k : String) (v : Value) (fs : List (String × Value))
    (h : fs ≠ []) :
    serFields ((k, v) :: fs) =
      ('"' :: (escChars k.data ++ '"' :: ':' :: serChars v)) ++ ',' :: serFields fs := by
  cases fs with
  | nil => exact absurd rfl h
  | cons f fs' => simp [serFields]

theorem digitFree_cons (c : Char) (l : List Char) : digitFree (c :: l) = !c.isDigit := rfl

/-- Joint round-trip statement for the three mutually recursive readers:
with enough fuel, each reader consumes exactly the serializer's output and
returns the original value(s). -/
theorem parse_ser_aux (fuel : Nat) :
    (∀ v rest, (serChars v).length < fuel → digitFree rest = true →
      parseValue fuel (serChars v ++ rest) = some (v, rest)) ∧
    (∀ items rest, items ≠ [] → (serItems items).length + 1 < fuel →
      parseItems fuel (serItems items ++ ']' :: rest) = some (items, rest)) ∧
    (∀ fields rest, fields ≠ [] → (serFields fields).length + 1 < fuel →
      parseFields fuel (serFields fields ++ '\x7d' :: rest) = some (fields, rest)) := by
  induction fuel with
  | zero =>
    exact ⟨fun v rest h _ => absurd h (by omega), fun items rest _ h => absurd h (by omega),
      fun fields rest _ h => absurd h (by omega)⟩
  | succ fuel ih =>
    obtain ⟨ihA, ihB, ihC⟩ := ih
    refine ⟨?_, ?_, ?_⟩
    · intro v rest hlen hdf
      cases v with
      | vnull =>
        simp only [serChars, List.cons_append, List.nil_append]
        rw [parseValue.eq_def]
        have hsk := skipWs_cons_of_not_ws 'n' ('u' :: 'l' :: 'l' :: rest) (by decide)
        simp only [hsk]
        simp
      | vbool b =>
        cases b with
        | true =>
          simp only [serChars, List.cons_append, List.nil_append]
          rw [parseValue.eq_def]
          have hsk := skipWs_cons_of_not_ws 't' ('r' :: 'u' :: 'e' :: rest) (by decide)
          simp only [hsk]
          simp
        | false =>
          simp only [serChars, List.cons_append, List.nil_append]
          rw [parseValue.eq_def]
          have hsk := skipWs_cons_of_not_ws 'f' ('a' :: 'l' :: 's' :: 'e' :: rest) (by decide)
          simp only [hsk]
          simp
      | vnum n =>
        obtain ⟨c, cs, hl, hd⟩ := natChars_head n.natAbs
        obtain ⟨g1, g2, g3, g4, g5, g6, g7, _, _⟩ := isDigit_not_key_char c hd
        have hrd := readDigits_natChars n.natAbs rest hdf
        rw [hl] at hrd
        simp only [List.cons_append] at hrd
        by_cases hn : n < 0
        · have hneg : -((n.natAbs : Nat) : Int) = n := by omega
          simp only [serChars, intChars, if_pos hn, List.cons_append, hl]
          rw [parseValue.eq_def]
          have hsk := skipWs_cons_of_not_ws '-' (c :: (cs ++ rest)) (by decide)
          simp only [List.cons_append, hsk]
          simp [hd]
          rw [hrd]
          exact ⟨hneg, rfl⟩
        · have hpos : ((n.natAbs : Nat) : Int) = n := by omega
          simp only [serChars, intChars, if_neg hn, hl]
          rw [parseValue.eq_def]
          have hsk := skipWs_cons_of_not_ws c (cs ++ rest) (isWsChar_eq_false_of_isDigit c hd)
          simp only [List.cons_append, hsk]
          simp only [if_neg g1, if_neg g2, if_neg g3, if_neg g4, if_neg g5, if_neg g6,
            if_neg g7, hd, if_pos]
          rw [hrd, hpos]
      | vstr s =>
        simp only [serChars, List.cons_append, List.append_assoc, List.cons_append,
          List.nil_append]
        rw [parseValue.eq_def]
        have hsk := skipWs_cons_of_not_ws '"' (escChars s.data ++ '"' :: rest) (by decide)
        simp only [hsk]
        simp only [readStringAux_escChars]
        simp
      | varr items =>
        cases items with
        | nil =>
          simp only [serChars, serItems, List.cons_append, List.nil_append]
          rw [parseValue.eq_def]
          have hsk := skipWs_cons_of_not_ws '[' (']' :: rest) (by decide)
          have hsk2 := skipWs_cons_of_not_ws ']' rest (by decide)
          simp only [hsk, hsk2]
          simp
        | cons v vs =>
          have hlen2 : (serItems (v :: vs)).length + 1 < fuel := by
            simp only [serChars, List.length_cons, List.length_append] at hlen
            simp at hlen
            omega
          simp only [serChars, List.cons_append, List.append_assoc, List.cons_append,
            List.nil_append]
          rw [parseValue.eq_def]
          have hsk := skipWs_cons_of_not_ws '[' (serItems (v :: vs) ++ ']' :: rest) (by decide)
          simp only [hsk]
          obtain ⟨c, cs, hl, hws, hne1, _⟩ : ∃ c cs, serItems (v :: vs) = c :: cs ∧
              isWsChar c = false ∧ ¬ c = ']' ∧ ¬ c = '\x7d' := by
            obtain ⟨c, cs, hl, hws, hne1, hne2⟩ := serChars_head_ok v
            cases vs with
            | nil => exact ⟨c, cs, by simp [serItems, hl], hws, hne1, hne2⟩
            | cons w ws =>
              exact ⟨c, cs ++ ',' :: serItems (w :: ws), by simp [serItems, hl], hws, hne1,
                hne2⟩
          rw [hl]
          have hsk2 := skipWs_cons_of_not_ws c (cs ++ ']' :: rest) hws
          simp only [List.cons_append, hsk2]
          have hB := ihB (v :: vs) rest (by simp) hlen2
          rw [hl] at hB
          simp only [List.cons_append] at hB
          simp [hne1, hB]
      | vobj fields =>
        cases fields with
        | nil =>
          simp only [serChars, serFields, List.cons_append, List.nil_append]
          rw [parseValue.eq_def]
          have hsk := skipWs_cons_of_not_ws '\x7b' ('\x7d' :: rest) (by decide)
          have hsk2 := skipWs_cons_of_not_ws '\x7d' rest (by decide)
          simp only [hsk, hsk2]
          simp
        | cons f fs =>
          obtain ⟨k, v⟩ := f
          have hlen2 : (serFields ((k, v) :: fs)).length + 1 < fuel := by
            simp only [serChars, List.length_cons, List.length_append] at hlen
            simp at hlen
            omega
          simp only [serChars, List.cons_append, List.append_assoc, List.cons_append,
            List.nil_append]
          rw [parseValue.eq_def]
          have hsk := skipWs_cons_of_not_ws '\x7b'
            (serFields ((k, v) :: fs) ++ '\x7d' :: rest) (by decide)
          simp only [hsk]
          obtain ⟨cs, hl⟩ : ∃ cs, serFields ((k, v) :: fs) = '"' :: cs := by
            cases fs with
            | nil => exact ⟨escChars k.data ++ '"' :: ':' :: serChars v, by simp [serFields]⟩
            | cons g gs =>
              exact ⟨(escChars k.data ++ '"' :: ':' :: serChars v) ++
                ',' :: serFields (g :: gs), by simp [serFields]⟩
          rw [hl]
          have hsk2 := skipWs_cons_of_not_ws '"' (cs ++ '\x7d' :: rest) (by decide)
          simp only [List.cons_append, hsk2]
          have hC := ihC ((k, v) :: fs) rest (by simp) hlen2
          rw [hl] at hC
          simp only [List.cons_append] at hC
          simp [hC]
    · intro items rest hne hlen
      cases items with
      | nil => exact absurd rfl hne
      | cons v vs =>
        cases vs with
        | nil =>
          have hA := ihA v (']' :: rest) (by simp [serItems] at hlen; omega)
            (by simp [digitFree])
          rw [parseItems.eq_def]
          simp only [serItems]
          simp only [hA]
          have hsk := skipWs_cons_of_not_ws ']' rest (by decide)
          simp only [hsk]
        | cons w ws =>
          have hsplit := serItems_cons_ne v (w :: ws) (by simp)
          have hvpos := serChars_length_pos v
          have hlA : (serChars v).length < fuel := by
            rw [hsplit] at hlen; simp at hlen; omega
          have hlB : (serItems (w :: ws)).length + 1 < fuel := by
            rw [hsplit] at hlen; simp at hlen; omega
          have hA := ihA v (',' :: (serItems (w :: ws) ++ ']' :: rest)) hlA
            (by simp [digitFree])
          have hB := ihB (w :: ws) rest (by simp) hlB
          rw [parseItems.eq_def, hsplit]
          simp only [List.append_assoc, List.cons_append]
          simp only [hA]
          have hsk := skipWs_cons_of_not_ws ',' (serItems (w :: ws) ++ ']' :: rest)
            (by decide)
          simp only [hsk]
          simp [hB]
    · intro fields rest hne hlen
      cases fields with
      | nil => exact absurd rfl hne
      | cons f fs =>
        obtain ⟨k, v⟩ := f
        have hvpos := serChars_length_pos v
        cases fs with
        | nil =>
          have hlA : (serChars v).length < fuel := by
            simp [serFields] at hlen; omega
          have hA := ihA v ('\x7d' :: rest) hlA (by simp [digitFree])
          rw [parseFields.eq_def]
          simp only [serFields, List.cons_append, List.append_assoc, List.cons_append]
          have hsk := skipWs_cons_of_not_ws '"'
            (escChars k.data ++ '"' :: ':' :: (serChars v ++ '\x7d' :: rest)) (by decide)
          simp only [hsk]
          rw [readStringAux_escChars]
          have hsk2 := skipWs_cons_of_not_ws ':' (serChars v ++ '\x7d' :: rest) (by decide)
          simp only [hsk2]
          simp only [hA]
          have hsk3 := skipWs_cons_of_not_ws '\x7d' rest (by decide)
          simp only [hsk3]
        | cons g gs =>
          have hsplit := serFields_cons_ne k v (g :: gs) (by simp)
          have hlA : (serChars v).length < fuel := by
            rw [hsplit] at hlen; simp at hlen; omega
          have hlC : (serFields (g :: gs)).length + 1 < fuel := by
            rw [hsplit] at hlen; simp at hlen; omega
          have hA := ihA v (',' :: (serFields (g :: gs) ++ '\x7d' :: rest)) hlA
            (by simp [digitFree])
          have hC := ihC (g :: gs) rest (by simp) hlC
          rw [parseFields.eq_def, hsplit]
          simp only [List.append_assoc, List.cons_append]
          have hsk := skipWs_cons_of_not_ws '"'
            (escChars k.data ++
              '"' :: ':' :: (serChars v ++ ',' :: (serFields (g :: gs) ++ '\x7d' :: rest)))
            (by decide)
          simp only [hsk]
          rw [readStringAux_escChars]
          have hsk2 := skipWs_cons_of_not_ws ':'
            (serChars v ++ ',' :: (serFields (g :: gs) ++ '\x7d' :: rest)) (by decide)
          simp only [hsk2]
          simp only [hA]
          have hsk3 := skipWs_cons_of_not_ws ','
            (serFields (g :: gs) ++ '\x7d' :: rest) (by decide)
          simp only [hsk3]
          simp [hC]

theorem parse_serChars (v : Value) (rest : List Char) (h : digitFree rest = true) :
    parseValue ((serChars v).length + 1) (serChars v ++ rest) = some (v, rest) :=
  (parse_ser_aux _).1 v rest (by omega) h

/-- `JSON.parse` inverts `JSON.stringify` on every representable value. -/
theorem defaultDeserialize_defaultSerialize (v : Value) :
    defaultDeserialize (defaultSerialize v) = some v := by
  have hsk : skipWs (serChars v) = serChars v := by
    simpa using skipWs_serChars v []
  have hA : parseValue ((serChars v).length + 1) (serChars v ++ []) = some (v, []) :=
    (parse_ser_aux _).1 v [] (by omega) rfl
  rw [List.append_nil] at hA
  rw [defaultDeserialize]
  show (match parseValue ((serChars v).length + 1) (skipWs (serChars v)) with
    | some (v, rest) => if skipWs rest = [] then some v else none
    | none => none) = some v
  rw [hsk, hA]
  rfl

theorem serChars_injective : Function.Injective serChars := by
  intro a b h
  have ha := (parse_ser_aux ((serChars a).length + 1)).1 a [] (by omega) rfl
  have hb := (parse_ser_aux ((serChars b).length + 1)).1 b [] (by omega) rfl
  rw [List.append_nil] at ha hb
  rw [h] at ha
  have := ha.symm.trans hb
  simpa using this

instance instDecEqValue : DecidableEq Value := fun a b =>
  decidable_of_iff (serChars a = serChars b)
    ⟨fun h => serChars_injective h, fun h => by rw [h]⟩

/-- Host storage environment: an availability flag (whether the storage
probe succeeds) and the stored key-value records. -/
structure Env where
  available : Bool
  storage : List (String × String)

/-- Looks up the stored string under a key (models `localStorage.getItem`,
with `null` becoming `none`). -/
def storageGet (env : Env) (key : String) : Option String :=
  (env.storage.find? (fun kv => kv.1 = key)).map (fun kv => kv.2)

/-- Replaces or appends a record (models `localStorage.setItem`). -/
def storageSet (st : List (String × String)) (key val : String) :
    List (String × String) :=
  if st.any (fun kv => kv.1 = key) then
    st.map (fun kv => if kv.1 = key then (key, val) else kv)
  else st ++ [(key, val)]

/-- Models `isLocalStorageAvailable` from `isLocalStorageAvailable.ts`: the
probe writes and removes a test key inside try/catch, succeeding exactly
when the primitive is functional and leaving the store unchanged. -/
def isLocalStorageAvailable (env : Env) : Bool :=
  env.available

/-- Models `readLocalStorage` from `readLocalStorage.ts`: `none` when the
primitive is unavailable, the key is absent, or the deserializer throws
(throwing functions are modelled as Option-valued). -/
def readLocalStorage {α : Type} (env : Env) (key : String)
    (deserialize : String → Option α) : Option α :=
  if !(isLocalStorageAvailable env) then none
  else
    match storageGet env key with
    | none => none
    | some raw => deserialize raw

/-- Models `writeLocalStorage` from `writeLocalStorage.ts`: a no-op when the
primitive is unavailable; otherwise serializes and stores the value
(`setItem` faults are caught; the model's store accepts every write). -/
def writeLocalStorage {α : Type} (env : Env) (key : String) (value : α)
    (serialize : α → String) : Env :=
  if !(isLocalStorageAvailable env) then env
  else { env with storage := storageSet env.storage key (serialize value) }

/-- Models `removeLocalStorage` from `removeLocalStorage.ts`. -/
def removeLocalStorage (env : Env) (key : String) : Env :=
  if !(isLocalStorageAvailable env) then env
  else { env with storage := env.storage.filter (fun kv => kv.1 ≠ key) }

/-- Per-field codec from `types.ts` (`parse` may throw, hence Option). -/
structure Codec where
  parse : String → Option Value
  format : Value → String

/-- Construction options of `useLocalStorageState` from `types.ts`.
`onChange` is modelled by the notification lists the operations return;
Defaults are passed separately, already resolved. -/
structure StateOptions where
  key : String
  codecs : Option (List (String × Codec)) := none
  sanitize : Option (Obj → Obj) := none
  syncAcrossTabs : Bool := true
  version : Option Int := none
  migrate : Option (Value → Int → Option Obj) := none

/-- JS falsiness of `raw` in `if (!raw) return \x7b\x7d`: both `undefined`
and the empty string are falsy. -/
def isFalsyRaw : Option String → Bool
  | none => true
  | some s => s = ""

/-- A non-object JSON document used as a `Partial<T>`: spreading a
primitive contributes no named fields. -/
def asPartialObj : Value → Obj
  | .vobj fields => fields
  | _ => []

/-- Models `readAll` from `useLocalStorageState.ts`: availability guard,
guarded raw read, falsy check, then `JSON.parse` and the optional
migrate call inside try/catch with `\x7b\x7d` as the fallback. -/
def readAll (env : Env) (opts : StateOptions) : Obj :=
  if !(isLocalStorageAvailable env) then []
  else
    let raw := readLocalStorage env opts.key (fun s => some s)
    if isFalsyRaw raw then []
    else
      let tryRead : Option Obj :=
        match defaultDeserialize (raw.getD "") with
        | none => none
        | some parsed =>
          match opts.version, opts.migrate with
          | some ver, some mig => mig parsed ver
          | _, _ => some (asPartialObj parsed)
      tryRead.getD []

/-- Modelled from the spec: the source file
`src/lib/utils/mergeWithDefaults.ts` is imported by
`useLocalStorageState.ts` but is not among the provided sources.
Spec section 4.3: each field present in the partial value overrides the
corresponding default; fields absent from the partial are taken from
Defaults; fields absent from both are absent. The overlay is one level
deep and values are replaced wholesale. -/
def mergeWithDefaults (p : Obj) (defaults : Obj) : Obj :=
  defaults.filter (fun kv => !(p.any (fun pkv => pkv.1 = kv.1))) ++ p

/-- Models `readInitial` from `useLocalStorageState.ts`: pipeline read,
optional sanitizer, merge onto Defaults. -/
def readInitial (env : Env) (opts : StateOptions) (defaults : Obj) : Obj :=
  let persisted := readAll env opts
  let sanitized :=
    match opts.sanitize with
    | some f => f persisted
    | none => persisted
  mergeWithDefaults sanitized defaults

/-- Field lookup in a State object. -/
def objLookup (o : Obj) (k : String) : Option Value :=
  (o.find? (fun kv => kv.1 = k)).map (fun kv => kv.2)

/-- JS property assignment on a copy: updates the field in place when
present, otherwise appends it. -/
def objAssign (o : Obj) (k : String) (v : Value) : Obj :=
  if o.any (fun kv => kv.1 = k) then
    o.map (fun kv => if kv.1 = k then (k, v) else kv)
  else o ++ [(k, v)]

/-- JS `delete` on a copy of the object. -/
def objDelete (o : Obj) (k : String) : Obj :=
  o.filter (fun kv => kv.1 ≠ k)

/-- JS object spread of `b` onto `a`. -/
def objSpread (a b : Obj) : Obj :=
  b.foldl (fun acc kv => objAssign acc kv.1 kv.2) a

/-- Change-source tag of `ChangeMeta`. -/
inductive Source where
  | set : Source
  | patch : Source
  | external : Source
deriving DecidableEq

/-- One observer notification: the next state and the change source,
modelling one call of the configured `onChange`. -/
abbrev Notif := Obj × Source

/-- Models `writeFull` from `useLocalStorageState.ts`: skip when the
primitive is unavailable, else store the JSON-serialized full state under
the single configured key. The `codecs` option is not consulted, mirroring
the source, which destructures only key, sanitize, onChange,
syncAcrossTabs, version and migrate. -/
def writeFull (env : Env) (opts : StateOptions) (next : Obj) : Env :=
  if !(isLocalStorageAvailable env) then env
  else writeLocalStorage env opts.key (defaultSerialize (Value.vobj next)) (fun s => s)

/-- Models `api.setState`: the updater is either a literal next state or a
function of the previous state; writes and notifies with source "set". -/
def apiSetState (env : Env) (opts : StateOptions) (prev : Obj)
    (updater : Sum Obj (Obj → Obj)) : Env × Obj × List Notif :=
  let next :=
    match updater with
    | .inl value => value
    | .inr f => f prev
  (writeFull env opts next, next, [(next, Source.set)])

/-- Models `api.get`: pure read of the current state. -/
def apiGet (st : Obj) (k : String) : Option Value :=
  objLookup st k

/-- Models `api.set`: an `undefined` value (`none`) deletes the field,
otherwise the value is assigned; writes and notifies with source "patch". -/
def apiSet (env : Env) (opts : StateOptions) (prev : Obj) (k : String)
    (v : Option Value) : Env × Obj × List Notif :=
  let next :=
    match v with
    | none => objDelete prev k
    | some value => objAssign prev k value
  (writeFull env opts next, next, [(next, Source.patch)])

/-- Models `api.patch`: object-spread of the partial onto the previous
state; writes and notifies with source "patch". -/
def apiPatch (env : Env) (opts : StateOptions) (prev : Obj) (p : Obj) :
    Env × Obj × List Notif :=
  let next := objSpread prev p
  (writeFull env opts next, next, [(next, Source.patch)])

/-- Models `api.remove`: deletes each named field from a copy of the
previous state; writes and notifies with source "patch". -/
def apiRemove (env : Env) (opts : StateOptions) (prev : Obj)
    (ks : List String) : Env × Obj × List Notif :=
  let next := ks.foldl (fun acc k => objDelete acc k) prev
  (writeFull env opts next, next, [(next, Source.patch)])

/-- Models `api.clear`: removes the persisted record and resets the state
to the empty object, with no `onChange` call. -/
def apiClear (env : Env) (opts : StateOptions) : Env × Obj × List Notif :=
  (removeLocalStorage env opts.key, [], [])

/-- Models the `storage` event handler registered when `syncAcrossTabs` is
enabled: an exact key match re-runs the full read pipeline, replaces the
state wholesale and notifies with source "external"; any other key is
ignored. -/
def handleStorageEvent (env : Env) (opts : StateOptions) (defaults : Obj)
    (eventKey : String) (st : Obj) : Obj × List Notif :=
  if eventKey ≠ opts.key then (st, [])
  else
    let next := readInitial env opts defaults
    (next, [(next, Source.external)])

theorem mergeWithDefaults_nil (defaults : Obj) :
    mergeWithDefaults [] defaults = defaults := by
  simp [mergeWithDefaults]

theorem readAll_no_record (env : Env) (opts : StateOptions)
    (hav : env.available = true) (habs : storageGet env opts.key = none) :
    readAll env opts = [] := by
  simp [readAll, readLocalStorage, isLocalStorageAvailable, hav, habs, isFalsyRaw]

/-- C1: with the storage primitive available but holding no record under the
configured key, and no sanitizer configured, `readInitial` returns exactly
the resolved Defaults: present default fields keep their values and fields
absent from Defaults are absent from the result. -/
theorem c1_readInitial_eq_defaults (env : Env) (opts : StateOptions) (defaults : Obj)
    (hav : env.available = true) (habs : storageGet env opts.key = none)
    (hsan : opts.sanitize = none) :
    readInitial env opts defaults = defaults := by
  rw [readInitial, readAll_no_record env opts hav habs, hsan]
  exact mergeWithDefaults_nil defaults

theorem c1_witness :
    (Env.mk true []).available = true ∧
    storageGet (Env.mk true []) "prefs" = none ∧
    (StateOptions.mk "prefs" none none true none none).sanitize = none ∧
    readInitial (Env.mk true []) (StateOptions.mk "prefs" none none true none none)
      [("theme", Value.vstr "light")] = [("theme", Value.vstr "light")] :=
  ⟨rfl, rfl, rfl, c1_readInitial_eq_defaults _ _ _ rfl rfl rfl⟩

theorem readAll_present (env : Env) (opts : StateOptions) (raw : String)
    (hav : env.available = true) (hraw : storageGet env opts.key = some raw)
    (hne : raw ≠ "") :
    readAll env opts =
      (match defaultDeserialize raw with
        | none => none
        | some parsed =>
          match opts.version, opts.migrate with
          | some ver, some mig => mig parsed ver
          | _, _ => some (asPartialObj parsed) : Option Obj).getD [] := by
  simp [readAll, readLocalStorage, isLocalStorageAvailable, hav, hraw, isFalsyRaw, hne]

/-- C2: when the configured migrate function throws during the read
pipeline, the read is treated as an empty partial and (with no sanitizer)
the resulting State equals Defaults exactly; no output of the failed
migration is applied. -/
theorem c2_migrate_throw (env : Env) (opts : StateOptions) (defaults : Obj)
    (raw : String) (parsed : Value) (ver : Int) (mig : Value → Int → Option Obj)
    (hav : env.available = true) (hraw : storageGet env opts.key = some raw)
    (hne : raw ≠ "") (hparse : defaultDeserialize raw = some parsed)
    (hver : opts.version = some ver) (hmig : opts.migrate = some mig)
    (hthrow : mig parsed ver = none) (hsan : opts.sanitize = none) :
    readAll env opts = [] ∧ readInitial env opts defaults = defaults := by
  have hall : readAll env opts = [] := by
    rw [readAll_present env opts raw hav hraw hne, hparse, hver, hmig]
    show (mig parsed ver).getD [] = []
    rw [hthrow]
    rfl
  refine ⟨hall, ?_⟩
  rw [readInitial, hall, hsan]
  exact mergeWithDefaults_nil defaults

theorem c2_witness :
    (Env.mk true [("prefs", "\x7b\x7d")]).available = true ∧
    storageGet (Env.mk true [("prefs", "\x7b\x7d")]) "prefs" = some "\x7b\x7d" ∧
    "\x7b\x7d" ≠ "" ∧
    defaultDeserialize "\x7b\x7d" = some (Value.vobj []) ∧
    (fun (_ : Value) (_ : Int) => (none : Option Obj)) (Value.vobj []) 2 = none ∧
    readInitial (Env.mk true [("prefs", "\x7b\x7d")])
      (StateOptions.mk "prefs" none none true (some 2)
        (some (fun _ _ => none)))
      [("theme", Value.vstr "light")] = [("theme", Value.vstr "light")] := by
  refine ⟨rfl, rfl, by decide, by decide, rfl, ?_⟩
  exact (c2_migrate_throw (Env.mk true [("prefs", "\x7b\x7d")])
    (StateOptions.mk "prefs" none none true (some 2) (some (fun _ _ => none)))
    [("theme", Value.vstr "light")] "\x7b\x7d" (Value.vobj []) 2 (fun _ _ => none)
    rfl rfl (by decide) (by decide) rfl rfl rfl rfl).2

/-- C3: a stored string the codec cannot decode is caught inside the read
pipeline, the read is treated as an empty partial, and (with no sanitizer)
`readInitial` returns a State equal to Defaults. -/
theorem c3_decode_failure (env : Env) (opts : StateOptions) (defaults : Obj)
    (raw : String)
    (hav : env.available = true) (hraw : storageGet env opts.key = some raw)
    (hne : raw ≠ "") (hparse : defaultDeserialize raw = none)
    (hsan : opts.sanitize = none) :
    readAll env opts = [] ∧ readInitial env opts defaults = defaults := by
  have hall : readAll env opts = [] := by
    rw [readAll_present env opts raw hav hraw hne, hparse]
    rfl
  refine ⟨hall, ?_⟩
  rw [readInitial, hall, hsan]
  exact mergeWithDefaults_nil defaults

theorem c3_witness :
    (Env.mk true [("prefs", "invalid-json")]).available = true ∧
    storageGet (Env.mk true [("prefs", "invalid-json")]) "prefs" =
      some "invalid-json" ∧
    "invalid-json" ≠ "" ∧
    defaultDeserialize "invalid-json" = none ∧
    readInitial (Env.mk true [("prefs", "invalid-json")])
      (StateOptions.mk "prefs" none none true none none)
      [("theme", Value.vstr "light")] = [("theme", Value.vstr "light")] := by
  refine ⟨rfl, rfl, by decide, by decide, ?_⟩
  exact (c3_decode_failure (Env.mk true [("prefs", "invalid-json")])
    (StateOptions.mk "prefs" none none true none none)
    [("theme", Value.vstr "light")] "invalid-json"
    rfl rfl (by decide) (by decide) rfl).2

/-- C10: an empty stored string is treated exactly like an absent record:
the guard returns before any decode or migrate of the stored content, for
every configured version and migrate function, and (with no sanitizer)
`readInitial` returns a State equal to Defaults. -/
theorem c10_empty_string (env : Env) (opts : StateOptions) (defaults : Obj)
    (hraw : storageGet env opts.key = some "") (hsan : opts.sanitize = none) :
    readAll env opts = [] ∧ readInitial env opts defaults = defaults := by
  have hall : readAll env opts = [] := by
    cases hav : env.available with
    | false => simp [readAll, isLocalStorageAvailable, hav]
    | true =>
      simp [readAll, readLocalStorage, isLocalStorageAvailable, hav, hraw, isFalsyRaw]
  refine ⟨hall, ?_⟩
  rw [readInitial, hall, hsan]
  exact mergeWithDefaults_nil defaults

theorem c10_witness :
    storageGet (Env.mk true [("prefs", "")]) "prefs" = some "" ∧
    readAll (Env.mk true [("prefs", "")])
      (StateOptions.mk "prefs" none none true (some 2)
        (some (fun _ _ => some [("hacked", Value.vbool true)]))) = [] ∧
    readInitial (Env.mk true [("prefs", "")])
      (StateOptions.mk "prefs" none none true (some 2)
        (some (fun _ _ => some [("hacked", Value.vbool true)])))
      [("theme", Value.vstr "light")] = [("theme", Value.vstr "light")] := by
  refine ⟨rfl, ?_, ?_⟩
  · exact (c10_empty_string (Env.mk true [("prefs", "")])
      (StateOptions.mk "prefs" none none true (some 2)
        (some (fun _ _ => some [("hacked", Value.vbool true)]))) [] rfl rfl).1
  · exact (c10_empty_string (Env.mk true [("prefs", "")])
      (StateOptions.mk "prefs" none none true (some 2)
        (some (fun _ _ => some [("hacked", Value.vbool true)])))
      [("theme", Value.vstr "light")] rfl rfl).2

theorem objLookup_cons_of_ne (hd : String × Value) (tl : Obj) (k : String)
    (h : ¬ hd.1 = k) : objLookup (hd :: tl) k = objLookup tl k := by
  simp [objLookup, List.find?_cons_of_neg, h]

theorem objLookup_cons_self (hd : String × Value) (tl : Obj) (k : String)
    (h : hd.1 = k) : objLookup (hd :: tl) k = some hd.2 := by
  simp [objLookup, List.find?_cons_of_pos, h]

theorem objLookup_replace (tl : Obj) (k : String) (v : Value)
    (h : tl.any (fun kv => kv.1 = k) = true) :
    objLookup (tl.map (fun kv => if kv.1 = k then (k, v) else kv)) k = some v := by
  induction tl with
  | nil => simp at h
  | cons hd tl ih =>
    by_cases hk : hd.1 = k
    · simp only [List.map_cons, if_pos hk]
      exact objLookup_cons_self (k, v) _ k rfl
    · have htl : tl.any (fun kv => kv.1 = k) = true := by
        simp only [List.any_cons, Bool.or_eq_true, decide_eq_true_eq] at h
        rcases h with h | h
        · exact absurd h hk
        · exact h
      simp only [List.map_cons, if_neg hk]
      rw [objLookup_cons_of_ne hd _ k hk]
      exact ih htl

theorem objLookup_append_single (o : Obj) (k : String) (v : Value)
    (h : o.any (fun kv => kv.1 = k) = false) :
    objLookup (o ++ [(k, v)]) k = some v := by
  induction o with
  | nil => exact objLookup_cons_self (k, v) [] k rfl
  | cons hd tl ih =>
    simp only [List.any_cons, Bool.or_eq_false_iff, decide_eq_false_iff_not] at h
    rw [List.cons_append, objLookup_cons_of_ne hd _ k h.1]
    exact ih (by simpa using h.2)

theorem objLookup_objAssign_self (o : Obj) (k : String) (v : Value) :
    objLookup (objAssign o k v) k = some v := by
  rw [objAssign]
  cases hany : o.any (fun kv => kv.1 = k) with
  | true =>
    simp only [hany, if_true]
    exact objLookup_replace o k v hany
  | false =>
    simp only [hany, Bool.false_eq_true, if_false]
    exact objLookup_append_single o k v hany

theorem objLookup_objDelete (o : Obj) (k q : String) :
    objLookup (objDelete o k) q = if q = k then none else objLookup o q := by
  induction o with
  | nil =>
    simp only [objDelete, List.filter_nil]
    split <;> rfl
  | cons hd tl ih =>
    by_cases hk : hd.1 = k
    · have hstep : objDelete (hd :: tl) k = objDelete tl k := by
        simp [objDelete, List.filter_cons, hk]
      rw [hstep, ih]
      by_cases hq : q = k
      · simp [hq]
      · have hne : ¬ hd.1 = q := by rw [hk]; exact fun hc => hq hc.symm
        rw [if_neg hq, if_neg hq, objLookup_cons_of_ne hd tl q hne]
    · have hstep : objDelete (hd :: tl) k = hd :: objDelete tl k := by
        simp [objDelete, List.filter_cons, hk]
      rw [hstep]
      by_cases hdq : hd.1 = q
      · rw [objLookup_cons_self hd _ q hdq, objLookup_cons_self hd tl q hdq]
        have hq : ¬ q = k := fun hc => hk (hdq.trans hc)
        rw [if_neg hq]
      · rw [objLookup_cons_of_ne hd _ q hdq, objLookup_cons_of_ne hd tl q hdq, ih]

theorem objDelete_objDelete_eq_filter (st : Obj) (k1 k2 : String) :
    objDelete (objDelete st k1) k2 =
      st.filter (fun kv => !(kv.1 = k1 || kv.1 = k2)) := by
  induction st with
  | nil => rfl
  | cons hd tl ih =>
    by_cases h1 : hd.1 = k1
    · have hstep : objDelete (hd :: tl) k1 = objDelete tl k1 := by
        simp [objDelete, List.filter_cons, h1]
      rw [hstep, ih, List.filter_cons]
      simp [h1]
    · have hstep : objDelete (hd :: tl) k1 = hd :: objDelete tl k1 := by
        simp [objDelete, List.filter_cons, h1]
      rw [hstep]
      by_cases h2 : hd.1 = k2
      · have hstep2 : objDelete (hd :: objDelete tl k1) k2 =
            objDelete (objDelete tl k1) k2 := by
          simp [objDelete, List.filter_cons, h2]
        rw [hstep2, ih, List.filter_cons]
        simp [h2]
      · have hstep2 : objDelete (hd :: objDelete tl k1) k2 =
            hd :: objDelete (objDelete tl k1) k2 := by
          simp [objDelete, List.filter_cons, h2]
        rw [hstep2, ih, List.filter_cons]
        simp [h1, h2]

/-- C4: with the storage primitive unavailable, every write path
(`setState`, `set`, `patch`, `remove`) skips the persistence write (the
environment comes back unchanged), still installs the computed next
in-memory State (the same next State as under any other environment), and
still notifies the observer once with the appropriate source; in
particular `set("theme","dark")` still yields a State whose `theme` field
is `"dark"`. -/
theorem c4_unavailable_still_updates (env env' : Env) (opts : StateOptions)
    (prev : Obj) (u : Sum Obj (Obj → Obj)) (k : String) (v : Option Value)
    (p : Obj) (ks : List String) (h : env.available = false) :
    ((apiSetState env opts prev u).1 = env ∧
      (apiSetState env opts prev u).2.1 = (apiSetState env' opts prev u).2.1 ∧
      (apiSetState env opts prev u).2.2 =
        [((apiSetState env opts prev u).2.1, Source.set)]) ∧
    ((apiSet env opts prev k v).1 = env ∧
      (apiSet env opts prev k v).2.1 = (apiSet env' opts prev k v).2.1 ∧
      (apiSet env opts prev k v).2.2 =
        [((apiSet env opts prev k v).2.1, Source.patch)]) ∧
    ((apiPatch env opts prev p).1 = env ∧
      (apiPatch env opts prev p).2.1 = (apiPatch env' opts prev p).2.1 ∧
      (apiPatch env opts prev p).2.2 =
        [((apiPatch env opts prev p).2.1, Source.patch)]) ∧
    ((apiRemove env opts prev ks).1 = env ∧
      (apiRemove env opts prev ks).2.1 = (apiRemove env' opts prev ks).2.1 ∧
      (apiRemove env opts prev ks).2.2 =
        [((apiRemove env opts prev ks).2.1, Source.patch)]) ∧
    objLookup (apiSet env opts prev "theme" (some (Value.vstr "dark"))).2.1 "theme" =
      some (Value.vstr "dark") := by
  have hw : ∀ next, writeFull env opts next = env := by
    intro next
    simp [writeFull, isLocalStorageAvailable, h]
  exact ⟨⟨hw _, rfl, rfl⟩, ⟨hw _, rfl, rfl⟩, ⟨hw _, rfl, rfl⟩, ⟨hw _, rfl, rfl⟩,
    objLookup_objAssign_self prev "theme" (Value.vstr "dark")⟩

theorem c4_witness :
    (Env.mk false [("prefs", "old")]).available = false ∧
    (apiSet (Env.mk false [("prefs", "old")])
      (StateOptions.mk "prefs" none none true none none)
      [] "theme" (some (Value.vstr "dark"))).1 = Env.mk false [("prefs", "old")] ∧
    objLookup (apiSet (Env.mk false [("prefs", "old")])
      (StateOptions.mk "prefs" none none true none none)
      [] "theme" (some (Value.vstr "dark"))).2.1 "theme" = some (Value.vstr "dark") := by
  have hmain := c4_unavailable_still_updates (Env.mk false [("prefs", "old")])
    (Env.mk true []) (StateOptions.mk "prefs" none none true none none) []
    (Sum.inl []) "theme" (some (Value.vstr "dark")) [] [] rfl
  exact ⟨rfl, hmain.2.1.1, hmain.2.2.2.2⟩

/-- C5: `clear()` resets the held State to the empty object, emits no
observer notification (unlike the four writing mutations), and afterwards a
raw read of the configured key through the persistence adapter returns
absent. -/
theorem c5_clear (env : Env) (opts : StateOptions) :
    (apiClear env opts).2.1 = [] ∧ (apiClear env opts).2.2 = [] ∧
    readLocalStorage (apiClear env opts).1 opts.key (fun s => some s) = none := by
  refine ⟨rfl, rfl, ?_⟩
  show readLocalStorage (removeLocalStorage env opts.key) opts.key (fun s => some s) = none
  cases hav : env.available with
  | false =>
    simp [readLocalStorage, isLocalStorageAvailable, removeLocalStorage, hav]
  | true =>
    have hget : ∀ (b : Bool),
        storageGet (Env.mk b (env.storage.filter (fun kv => kv.1 ≠ opts.key)))
          opts.key = none := by
      intro b
      rw [storageGet, List.find?_eq_none.mpr]
      · rfl
      · intro kv hkv
        have hmem := List.of_mem_filter hkv
        simp only [decide_eq_true_eq] at hmem ⊢
        intro hc
        exact hmem hc
    simp only [removeLocalStorage, isLocalStorageAvailable, hav, Bool.not_true,
      Bool.false_eq_true, if_false, readLocalStorage, hget]

/-- C6: the storage-event handler re-runs the full read pipeline and
replaces the State wholesale with one "external"-sourced notification when
the event key matches the configured key exactly, and leaves the State
unchanged with no notification otherwise. -/
theorem c6_storage_sync (env : Env) (opts : StateOptions) (defaults : Obj)
    (st : Obj) (eventKey : String) :
    handleStorageEvent env opts defaults eventKey st =
      if eventKey = opts.key then
        (readInitial env opts defaults,
          [(readInitial env opts defaults, Source.external)])
      else (st, []) := by
  rw [handleStorageEvent]
  by_cases h : eventKey = opts.key
  · simp [h]
  · simp [h]

/-- C7 is refuted by the code: the `codecs` option is destructured nowhere
in `useLocalStorageState` and `writeFull` always persists
`defaultSerialize` output, so the persisted string is the same for every
codecs table, and with a custom string codec configured for "theme" the
stored record is still the default JSON encoding rather than anything the
codec produced. -/
theorem c7_codecs_ignored :
    (∀ (env : Env) (key : String) (cs₁ cs₂ : Option (List (String × Codec)))
      (san : Option (Obj → Obj)) (sync : Bool) (ver : Option Int)
      (mig : Option (Value → Int → Option Obj)) (next : Obj),
      writeFull env (StateOptions.mk key cs₁ san sync ver mig) next =
        writeFull env (StateOptions.mk key cs₂ san sync ver mig) next) ∧
    (writeFull (Env.mk true [])
        (StateOptions.mk "prefs"
          (some [("theme", Codec.mk (fun s => some (Value.vstr s))
            (fun v => match v with | Value.vstr s => s | _ => ""))])
          none true none none)
        [("theme", Value.vstr "dark")]).storage =
      [("prefs", "\x7b\"theme\":\"dark\"\x7d")] := by
  constructor
  · intro env key cs₁ cs₂ san sync ver mig next
    rfl
  · decide

/-- C8: `remove(k1, k2)` removes exactly the fields k1 and k2: the next
State is the previous State with those entries filtered out, every other
field keeps its value, and the spec's example evaluates as stated. -/
theorem c8_remove_exact (env : Env) (opts : StateOptions) (st : Obj)
    (k1 k2 : String) :
    (apiRemove env opts st [k1, k2]).2.1 =
      st.filter (fun kv => !(kv.1 = k1 || kv.1 = k2)) ∧
    (∀ k, objLookup (apiRemove env opts st [k1, k2]).2.1 k =
      if k = k1 ∨ k = k2 then none else objLookup st k) ∧
    (apiRemove env opts
      [("theme", Value.vstr "dark"), ("page", Value.vnum 2),
        ("sort", Value.vstr "asc")]
      ["theme", "page"]).2.1 = [("sort", Value.vstr "asc")] := by
  have hfold : (apiRemove env opts st [k1, k2]).2.1 =
      objDelete (objDelete st k1) k2 := rfl
  refine ⟨hfold.trans (objDelete_objDelete_eq_filter st k1 k2), ?_, ?_⟩
  · intro k
    rw [hfold, objLookup_objDelete, objLookup_objDelete]
    by_cases h2 : k = k2
    · simp [h2]
    · by_cases h1 : k = k1
      · simp [h1, h2]
      · simp [h1, h2]
  · show List.foldl (fun acc k => objDelete acc k)
      [("theme", Value.vstr "dark"), ("page", Value.vnum 2), ("sort", Value.vstr "asc")]
      ["theme", "page"] = [("sort", Value.vstr "asc")]
    decide

/-- C9: with no custom codec configured, the default codec round-trips
every State: decoding the encoded State yields the State back. -/
theorem c9_default_codec_roundtrip (s : Obj) :
    defaultDeserialize (defaultSerialize (Value.vobj s)) = some (Value.vobj s) :=
  defaultDeserialize_defaultSerialize (Value.vobj s)
